import Mathlib

/-!
The reallocation primitive of `src/memory.c`

`reallocate` is the single entry point through which the host program
acquires, resizes and releases heap memory.  It is a thin wrapper around the
C library calls `free`, `realloc` and `exit`.

The C library is the environment of the function, so the development has two
layers:

* an explicit heap (a finite table from block addresses to byte contents) and
  the three library calls, following the C standard (7.22.3.3 `free`,
  7.22.3.5 `realloc`, 7.22.4.4 `exit`).  Every choice the standard leaves to
  the implementation (whether a request is satisfied, where the new block is
  placed, what the fresh bytes hold) is taken from an `Allocator` argument;
* `reallocate` itself, transcribed statement by statement from the source.
-/

namespace Memory

/-! ## Heap model -/

/-- Address of a block.  The value `0` is the null pointer. -/
abbrev Ptr := Nat

/-- One byte of block content (`unsigned char`). -/
abbrev Byte := Fin 256

/-- The null pointer, which the interface uses as the "no block" sentinel. -/
abbrev NULL : Ptr := 0

/-- The heap: the live blocks, each recorded with its base address and its
bytes.  The recorded size of a block is the length of its byte list. -/
abbrev Heap := List (Ptr × List Byte)

/-- Content of the live block based at `p`, if there is one. -/
def lookup : Heap → Ptr → Option (List Byte)
  | [], _ => none
  | (q, c) :: t, p => if q = p then some c else lookup t p

/-- The heap without any block based at `p`. -/
def remove : Heap → Ptr → Heap
  | [], _ => []
  | (q, c) :: t, p => if q = p then remove t p else (q, c) :: remove t p

/-- Recorded size of the block based at `p`, if it is live. -/
def blockSize (h : Heap) (p : Ptr) : Option Nat :=
  (lookup h p).map List.length

/-- A valid block: a non-null pointer that is the base of a live block. -/
def valid (h : Heap) (p : Ptr) : Prop :=
  p ≠ NULL ∧ (lookup h p).isSome = true

instance (h : Heap) (p : Ptr) : Decidable (valid h p) :=
  inferInstanceAs (Decidable (p ≠ NULL ∧ (lookup h p).isSome = true))

/-- Read byte `i` of the block based at `p`; `none` when the access is not
inside a live block. -/
def read (h : Heap) (p : Ptr) (i : Nat) : Option Byte :=
  (lookup h p).bind fun bytes => bytes[i]?

/-- Write byte `i` of the block based at `p`; `none` when the access is not
inside a live block. -/
def write (h : Heap) (p : Ptr) (i : Nat) (b : Byte) : Option Heap :=
  match lookup h p with
  | none => none
  | some c => if i < c.length then some ((p, c.set i b) :: remove h p) else none

/-- Write the bytes `bs` into the block based at `p`, starting at index `i`. -/
def writeFrom (h : Heap) (p : Ptr) : Nat → List Byte → Option Heap
  | _, [] => some h
  | i, b :: bs => (write h p i b).bind fun h1 => writeFrom h1 p (i + 1) bs

/-- Read `n` bytes of the block based at `p`, starting at index `0`. -/
def readBytes (h : Heap) (p : Ptr) (n : Nat) : Option (List Byte) :=
  (lookup h p).bind fun bytes => if n ≤ bytes.length then some (bytes.take n) else none

/-! ## Outcome of a call -/

/-- What a call does: it returns a value in a new heap, it ends the process
with an exit status, or its behaviour is undefined by the C standard. -/
inductive Outcome (α : Type) where
  | ret (value : α) (heap : Heap)
  | exit (status : Int)
  | undefined
  deriving DecidableEq

/-- Sequencing: continue with `f` when the first call returns. -/
def Outcome.bind {α β : Type} (o : Outcome α) (f : α → Heap → Outcome β) : Outcome β :=
  match o with
  | .ret v h => f v h
  | .exit s => .exit s
  | .undefined => .undefined

/-- The call returned. -/
def Outcome.returns {α : Type} : Outcome α → Bool
  | .ret _ _ => true
  | _ => false

/-- The call ended the process. -/
def Outcome.exits {α : Type} : Outcome α → Bool
  | .exit _ => true
  | _ => false

/-! ## The C library -/

/-- The implementation-defined part of the C allocator.

* `choose h p n` decides a request for `n` bytes made with old pointer `p` in
  heap `h`: `none` when the request cannot be satisfied, `some q` when the new
  block is placed at `q`.
* `junk h p n i` is the indeterminate value found at index `i` of the new
  block where no old content is carried over. -/
structure Allocator where
  choose : Heap → Ptr → Nat → Option Ptr
  junk : Heap → Ptr → Nat → Nat → Byte

/-- What the C standard requires of the placement: a new block is never at the
null address, and it either reuses the address of the old block or lies at an
address where no block is live. -/
def Allocator.WF (A : Allocator) : Prop :=
  ∀ h p n q, A.choose h p n = some q → q ≠ NULL ∧ (q = p ∨ lookup h q = none)

/-- The allocator satisfies every request. -/
def Allocator.alwaysSucceeds (A : Allocator) : Prop :=
  ∀ h p n, (A.choose h p n).isSome = true

/-- Content of a block of `n` bytes that carries over `old`: index `i` holds
`old[i]` where that exists and an indeterminate byte otherwise. -/
def resize (old : List Byte) (n : Nat) (fill : Nat → Byte) : List Byte :=
  (List.range n).map fun i => (old[i]?).getD (fill i)

/-- The library call `free(ptr)`: no action on the null pointer; otherwise `ptr` has to be the
base of a live block, which is deallocated. -/
def free (h : Heap) (ptr : Ptr) : Outcome Unit :=
  if ptr = NULL then .ret () h
  else
    match lookup h ptr with
    | none => .undefined
    | some _ => .ret () (remove h ptr)

/-- The library call `realloc(ptr, size)`: with a null `ptr` it allocates a new block; otherwise
`ptr` has to be the base of a live block.  When the request cannot be satisfied
it returns the null pointer and the old block is untouched.  Otherwise the old
block is deallocated and the result points to a new block of `size` bytes with
the old content up to the lesser of the two sizes. -/
def realloc (A : Allocator) (h : Heap) (ptr : Ptr) (size : Nat) : Outcome Ptr :=
  if ptr = NULL then
    match A.choose h ptr size with
    | none => .ret NULL h
    | some q => .ret q ((q, resize [] size (A.junk h ptr size)) :: h)
  else
    match lookup h ptr with
    | none => .undefined
    | some old =>
      match A.choose h ptr size with
      | none => .ret NULL h
      | some q => .ret q ((q, resize old size (A.junk h ptr size)) :: remove h ptr)

/-- The library call `exit(status)`: the process ends; the call does not return. -/
def exit {α : Type} (status : Int) : Outcome α := .exit status

/-! ## The primitive -/

/-- The function `reallocate` of `src/memory.c`:
```
void *reallocate(void *pointer, size_t oldSize, size_t newSize) {
  if (newSize == 0) { free(pointer); return NULL; }
  void *result = realloc(pointer, newSize);
  if (result == NULL) { exit(1); }
  return result;
}
```
-/
def reallocate (A : Allocator) (h : Heap) (pointer : Ptr) (oldSize newSize : Nat) :
    Outcome Ptr :=
  if newSize = 0 then
    (free h pointer).bind fun _ h1 => .ret NULL h1
  else
    (realloc A h pointer newSize).bind fun result h1 =>
      if result = NULL then exit 1 else .ret result h1

/-! ## Concrete allocators -/

/-- Largest base address of the heap (`0` for the empty heap). -/
def maxKey : Heap → Ptr
  | [] => 0
  | (q, _) :: t => max q (maxKey t)

/-- An allocator that satisfies every request at a new address above all live
blocks; fresh bytes are zero. -/
def bumpAllocator : Allocator where
  choose := fun h _ _ => some (maxKey h + 1)
  junk := fun _ _ _ _ => 0

/-- An allocator that resizes a live block where it is and places a new block
above all live blocks; fresh bytes are `0xAA`. -/
def inPlaceAllocator : Allocator where
  choose := fun h p _ => if p ≠ NULL ∧ (lookup h p).isSome then some p else some (maxKey h + 1)
  junk := fun _ _ _ _ => 170

/-- An allocator that never satisfies a request. -/
def failingAllocator : Allocator where
  choose := fun _ _ _ => none
  junk := fun _ _ _ _ => 0

/-- An allocator with `cap` bytes of memory: a request is satisfied, at a new
address, when the live blocks without the old one and the new block fit. -/
def boundedAllocator (cap : Nat) : Allocator where
  choose := fun h p n =>
    if ((remove h p).map fun e => e.2.length).sum + n ≤ cap then some (maxKey h + 1) else none
  junk := fun _ _ _ _ => 0

/-! ## Client sequences -/

/-- Release the sentinel `k` times in a row, threading the heap through the
calls; the outcome of the last call (of no call at all: the sentinel in the
initial heap). -/
def releaseSentinel (A : Allocator) (h : Heap) (oldSize : Nat) : Nat → Outcome Ptr
  | 0 => .ret NULL h
  | k + 1 => (releaseSentinel A h oldSize k).bind fun _ h1 => reallocate A h1 NULL oldSize 0

/-! ## Facts about the heap table -/

theorem lookup_remove_self (h : Heap) (p : Ptr) : lookup (remove h p) p = none := by
  induction h with
  | nil => rfl
  | cons e t ih =>
    obtain ⟨q, c⟩ := e
    by_cases hq : q = p <;> simp [remove, lookup, hq, ih]

theorem lookup_remove_ne (h : Heap) (p r : Ptr) (hr : r ≠ p) :
    lookup (remove h p) r = lookup h r := by
  induction h with
  | nil => rfl
  | cons e t ih =>
    obtain ⟨q, c⟩ := e
    by_cases hq : q = p
    · subst hq
      simp [remove, lookup, ih, Ne.symm hr]
    · by_cases hqr : q = r
      · subst hqr
        simp [remove, lookup, hq]
      · simp [remove, lookup, hq, hqr, ih]

theorem remove_of_lookup_none (h : Heap) (p : Ptr) (hp : lookup h p = none) :
    remove h p = h := by
  induction h with
  | nil => rfl
  | cons e t ih =>
    obtain ⟨q, c⟩ := e
    by_cases hq : q = p
    · simp [lookup, hq] at hp
    · simp [lookup, hq] at hp
      simp [remove, hq, ih hp]

theorem lookup_le_maxKey (h : Heap) (p : Ptr) (hp : (lookup h p).isSome = true) :
    p ≤ maxKey h := by
  induction h with
  | nil => simp [lookup] at hp
  | cons e t ih =>
    obtain ⟨q, c⟩ := e
    by_cases hq : q = p
    · simp [maxKey, hq]
    · simp [lookup, hq] at hp
      exact le_trans (ih hp) (le_max_right q (maxKey t))

theorem lookup_above_maxKey (h : Heap) : lookup h (maxKey h + 1) = none := by
  cases hl : lookup h (maxKey h + 1) with
  | none => rfl
  | some c =>
    exact absurd (lookup_le_maxKey h (maxKey h + 1) (by simp [hl])) (Nat.not_succ_le_self _)

theorem length_resize (old : List Byte) (n : Nat) (fill : Nat → Byte) :
    (resize old n fill).length = n := by
  simp [resize]

theorem getElem?_resize (old : List Byte) (n : Nat) (fill : Nat → Byte) (i : Nat) :
    (resize old n fill)[i]? = if i < n then some ((old[i]?).getD (fill i)) else none := by
  by_cases hi : i < n
  · simp [resize, hi, List.getElem?_range]
  · simp [resize, hi, List.getElem?_eq_none]
    exact Nat.le_of_not_lt hi

theorem getElem?_resize_old (old : List Byte) (n : Nat) (fill : Nat → Byte) (i : Nat)
    (hi : i < min old.length n) : (resize old n fill)[i]? = old[i]? := by
  have h1 : i < old.length := by omega
  have h2 : i < n := by omega
  rw [getElem?_resize]
  simp [h1, h2]

theorem take_resize (old : List Byte) (n : Nat) (fill : Nat → Byte) :
    (resize old n fill).take (min old.length n) = old.take (min old.length n) := by
  apply List.ext_getElem?
  intro i
  by_cases hi : i < min old.length n
  · rw [List.getElem?_take_of_lt hi, List.getElem?_take_of_lt hi]
    exact getElem?_resize_old old n fill i hi
  · rw [List.getElem?_eq_none, List.getElem?_eq_none]
    · simp; omega
    · simp [length_resize]; omega

/-! ## The concrete allocators respect the placement rules -/

theorem bumpAllocator_wf : bumpAllocator.WF := by
  intro h p n q hq
  simp [bumpAllocator] at hq
  subst hq
  exact ⟨by simp, Or.inr (lookup_above_maxKey h)⟩

theorem bumpAllocator_alwaysSucceeds : bumpAllocator.alwaysSucceeds := by
  intro h p n
  simp [bumpAllocator]

theorem inPlaceAllocator_wf : inPlaceAllocator.WF := by
  intro h p n q hq
  simp only [inPlaceAllocator] at hq
  split at hq
  · rename_i hc
    simp at hq
    subst hq
    exact ⟨hc.1, Or.inl rfl⟩
  · simp at hq
    subst hq
    exact ⟨by simp, Or.inr (lookup_above_maxKey h)⟩

theorem inPlaceAllocator_alwaysSucceeds : inPlaceAllocator.alwaysSucceeds := by
  intro h p n
  simp only [inPlaceAllocator]
  split <;> simp

theorem failingAllocator_wf : failingAllocator.WF := by
  intro h p n q hq
  simp [failingAllocator] at hq

theorem boundedAllocator_wf (cap : Nat) : (boundedAllocator cap).WF := by
  intro h p n q hq
  simp only [boundedAllocator] at hq
  split at hq
  · simp at hq
    subst hq
    exact ⟨by simp, Or.inr (lookup_above_maxKey h)⟩
  · simp at hq

/-! ## How the library calls behave on the inputs the interface allows -/

theorem free_null (h : Heap) : free h NULL = .ret () h := by
  simp [free]

theorem free_valid (h : Heap) (p : Ptr) (hp : valid h p) :
    free h p = .ret () (remove h p) := by
  obtain ⟨hne, hl⟩ := hp
  cases hc : lookup h p with
  | none => simp [hc] at hl
  | some c => simp [free, hne, hc]

theorem realloc_fails (A : Allocator) (h : Heap) (p : Ptr) (n : Nat)
    (hp : p = NULL ∨ valid h p) (hf : A.choose h p n = none) :
    realloc A h p n = .ret NULL h := by
  rcases hp with hp | ⟨hne, hl⟩
  · subst hp
    simp [realloc, hf]
  · cases hc : lookup h p with
    | none => simp [hc] at hl
    | some c => simp [realloc, hne, hc, hf]

theorem realloc_null_succeeds (A : Allocator) (h : Heap) (n : Nat) (q : Ptr)
    (hq : A.choose h NULL n = some q) :
    realloc A h NULL n = .ret q ((q, resize [] n (A.junk h NULL n)) :: h) := by
  simp [realloc, hq]

theorem realloc_valid_succeeds (A : Allocator) (h : Heap) (p : Ptr) (n : Nat) (q : Ptr)
    (old : List Byte) (hne : p ≠ NULL) (hold : lookup h p = some old)
    (hq : A.choose h p n = some q) :
    realloc A h p n = .ret q ((q, resize old n (A.junk h p n)) :: remove h p) := by
  simp [realloc, hne, hold, hq]

theorem reallocate_zero (A : Allocator) (h : Heap) (p : Ptr) (oldSize : Nat) :
    reallocate A h p oldSize 0 = (free h p).bind fun _ h1 => .ret NULL h1 := by
  simp [reallocate]

theorem reallocate_pos (A : Allocator) (h : Heap) (p : Ptr) (oldSize newSize : Nat)
    (hn : 0 < newSize) :
    reallocate A h p oldSize newSize =
      (realloc A h p newSize).bind fun result h1 =>
        if result = NULL then exit 1 else .ret result h1 := by
  simp [reallocate, Nat.pos_iff_ne_zero.mp hn]

/-- On an input the interface allows and a request the allocator satisfies at
a non-null address, `reallocate` returns that address; the new heap holds the
resized content there. -/
theorem reallocate_succeeds (A : Allocator) (h : Heap) (p : Ptr) (oldSize newSize : Nat)
    (q : Ptr) (hn : 0 < newSize) (hp : p = NULL ∨ valid h p)
    (hq : A.choose h p newSize = some q) (hq0 : q ≠ NULL) :
    ∃ old t, reallocate A h p oldSize newSize
        = .ret q ((q, resize old newSize (A.junk h p newSize)) :: t) ∧
      (p ≠ NULL → lookup h p = some old) ∧ (p = NULL → t = h) ∧ (p ≠ NULL → t = remove h p) := by
  rw [reallocate_pos A h p oldSize newSize hn]
  rcases hp with hp | ⟨hne, hl⟩
  · subst hp
    refine ⟨[], h, ?_, ?_, ?_, ?_⟩
    · rw [realloc_null_succeeds A h newSize q hq]
      simp [Outcome.bind, hq0]
    · intro hc; exact absurd rfl hc
    · intro _; rfl
    · intro hc; exact absurd rfl hc
  · cases hc : lookup h p with
    | none => simp [hc] at hl
    | some old =>
      refine ⟨old, remove h p, ?_, ?_, ?_, ?_⟩
      · rw [realloc_valid_succeeds A h p newSize q old hne hc hq]
        simp [Outcome.bind, hq0]
      · intro _; rfl
      · intro hc2; exact absurd hc2 hne
      · intro _; rfl

theorem lookup_cons_self (q : Ptr) (c : List Byte) (t : Heap) :
    lookup ((q, c) :: t) q = some c := by
  simp [lookup]

theorem lookup_cons_ne (q r : Ptr) (c : List Byte) (t : Heap) (hr : r ≠ q) :
    lookup ((q, c) :: t) r = lookup t r := by
  simp [lookup, Ne.symm hr]

theorem read_cons_self (q : Ptr) (bs : List Byte) (t : Heap) (i : Nat) :
    read ((q, bs) :: t) q i = bs[i]? := by
  simp [read, lookup]

/-- Writing `bs` from index `i` into a block that heads the table and occurs
nowhere else keeps the table's shape and rewrites exactly those bytes. -/
theorem writeFrom_cons (p : Ptr) (t : Heap) (ht : lookup t p = none) :
    ∀ (bs : List Byte) (old : List Byte) (i : Nat), i + bs.length ≤ old.length →
      ∃ new, writeFrom ((p, old) :: t) p i bs = some ((p, new) :: t) ∧
        new.length = old.length ∧
        (∀ j, j < bs.length → new[i + j]? = bs[j]?) ∧
        (∀ j, j < i → new[j]? = old[j]?) := by
  intro bs
  induction bs with
  | nil =>
    intro old i _
    exact ⟨old, rfl, rfl, by intro j hj; simp at hj, by intro j _; rfl⟩
  | cons b bs ih =>
    intro old i hi
    simp only [List.length_cons] at hi
    have hlt : i < old.length := by omega
    have hw : write ((p, old) :: t) p i b = some ((p, old.set i b) :: t) := by
      simp [write, lookup, remove, hlt, remove_of_lookup_none t p ht]
    obtain ⟨new, hnew, hlen, hin, hbelow⟩ :=
      ih (old.set i b) (i + 1) (by simp only [List.length_set]; omega)
    refine ⟨new, ?_, ?_, ?_, ?_⟩
    · simp only [writeFrom, hw, Option.bind]
      exact hnew
    · simpa using hlen
    · intro j hj
      cases j with
      | zero =>
        rw [Nat.add_zero, hbelow i (Nat.lt_succ_self i)]
        simp [hlt]
      | succ k =>
        have hk : k < bs.length := by simpa using hj
        have := hin k hk
        rw [List.getElem?_cons_succ, ← this]
        congr 1
        omega
    · intro j hj
      rw [hbelow j (Nat.lt_succ_of_lt hj)]
      exact List.getElem?_set_ne (Nat.ne_of_gt hj)

/-- What a returning call leaves behind: the old table with at most the passed
block taken out, and for a nonzero request the returned block put in front. -/
theorem reallocate_ret_shape (A : Allocator) (h : Heap) (p : Ptr) (oldSize newSize : Nat)
    (q : Ptr) (h1 : Heap) (hr : reallocate A h p oldSize newSize = .ret q h1) :
    ∃ t, (t = h ∨ t = remove h p) ∧
      ((newSize = 0 ∧ q = NULL ∧ h1 = t) ∨
       (0 < newSize ∧ q ≠ NULL ∧ A.choose h p newSize = some q ∧ ∃ bs, h1 = (q, bs) :: t)) := by
  by_cases hn : newSize = 0
  · subst hn
    rw [reallocate_zero] at hr
    by_cases hp : p = NULL
    · subst hp
      simp [free_null, Outcome.bind] at hr
      exact ⟨h, Or.inl rfl, Or.inl ⟨rfl, hr.1.symm, hr.2.symm⟩⟩
    · cases hl : lookup h p with
      | none => simp [free, hp, hl, Outcome.bind] at hr
      | some old =>
        simp [free, hp, hl, Outcome.bind] at hr
        exact ⟨remove h p, Or.inr rfl, Or.inl ⟨rfl, hr.1.symm, hr.2.symm⟩⟩
  · have hpos : 0 < newSize := Nat.pos_of_ne_zero hn
    rw [reallocate_pos A h p oldSize newSize hpos] at hr
    by_cases hp : p = NULL
    · subst hp
      cases hc : A.choose h NULL newSize with
      | none => simp [realloc, hc, Outcome.bind, exit] at hr
      | some v =>
        by_cases hv : v = NULL
        · simp [realloc, hc, Outcome.bind, exit, hv] at hr
        · simp [realloc, hc, Outcome.bind, hv] at hr
          obtain ⟨e1, e2⟩ := hr
          subst e1
          exact ⟨h, Or.inl rfl, Or.inr ⟨hpos, hv, rfl, _, e2.symm⟩⟩
    · cases hl : lookup h p with
      | none => simp [realloc, hp, hl, Outcome.bind] at hr
      | some old =>
        cases hc : A.choose h p newSize with
        | none => simp [realloc, hp, hl, hc, Outcome.bind, exit] at hr
        | some v =>
          by_cases hv : v = NULL
          · simp [realloc, hp, hl, hc, Outcome.bind, exit, hv] at hr
          · simp [realloc, hp, hl, hc, Outcome.bind, hv] at hr
            obtain ⟨e1, e2⟩ := hr
            subst e1
            exact ⟨remove h p, Or.inr rfl, Or.inr ⟨hpos, hv, rfl, _, e2.symm⟩⟩

/-- The library call `free` never ends the process. -/
theorem free_exits (h : Heap) (p : Ptr) : (free h p).exits = false := by
  by_cases hp : p = NULL
  · simp [free, hp, Outcome.exits]
  · cases hl : lookup h p <;> simp [free, hp, hl, Outcome.exits]

/-- The library call `realloc` never ends the process. -/
theorem realloc_exits (A : Allocator) (h : Heap) (p : Ptr) (n : Nat) :
    (realloc A h p n).exits = false := by
  by_cases hp : p = NULL
  · cases hc : A.choose h p n <;> simp [realloc, hp, hc, Outcome.exits] <;>
      (subst hp; simp [hc])
  · cases hl : lookup h p with
    | none => simp [realloc, hp, hl, Outcome.exits]
    | some old => cases hc : A.choose h p n <;> simp [realloc, hp, hl, hc, Outcome.exits]

/-- A release of the sentinel or of a valid block returns the sentinel. -/
theorem release_returns_sentinel (A : Allocator) (h : Heap) (p : Ptr) (oldSize : Nat)
    (hp : p = NULL ∨ valid h p) :
    ∃ h1, reallocate A h p oldSize 0 = .ret NULL h1 ∧ (h1 = h ∨ h1 = remove h p) := by
  rw [reallocate_zero]
  rcases hp with hp | hv
  · subst hp
    exact ⟨h, by simp [free_null, Outcome.bind], Or.inl rfl⟩
  · exact ⟨remove h p, by simp [free_valid h p hv, Outcome.bind], Or.inr rfl⟩

/-! ## The contract of `reallocate` -/

/-- Claim C1: for the sentinel or a valid block, and every `oldSize`, a call with
`newSize = 0` returns the sentinel; a valid block is released, so in the
resulting heap it is not valid any more and no read or write of it succeeds. -/
theorem reallocate_zero_releases (A : Allocator) (h : Heap) (p : Ptr) (oldSize : Nat)
    (hp : p = NULL ∨ valid h p) :
    ∃ h1, reallocate A h p oldSize 0 = .ret NULL h1 ∧
      (valid h p → ¬ valid h1 p ∧ lookup h1 p = none ∧
        (∀ i, read h1 p i = none) ∧ (∀ i b, write h1 p i b = none)) := by
  rw [reallocate_zero]
  rcases hp with hp | hv
  · subst hp
    refine ⟨h, by simp [free_null, Outcome.bind], ?_⟩
    intro hv
    exact absurd rfl hv.1
  · refine ⟨remove h p, by simp [free_valid h p hv, Outcome.bind], ?_⟩
    intro _
    have hnone := lookup_remove_self h p
    refine ⟨?_, hnone, ?_, ?_⟩
    · intro hv1
      simp [valid, hnone] at hv1
    · intro i
      simp [read, hnone]
    · intro i b
      simp [write, hnone]

/-- Releasing a valid 4-byte block with a mismatched `oldSize` and an allocator
that is out of memory. -/
theorem reallocate_zero_releases_witness :
    (1 = NULL ∨ valid [(1, [10, 11, 12, 13]), (5, [1])] 1) ∧
    ∃ h1, reallocate failingAllocator [(1, [10, 11, 12, 13]), (5, [1])] 1 7 0 = .ret NULL h1 ∧
      (valid [(1, [10, 11, 12, 13]), (5, [1])] 1 → ¬ valid h1 1 ∧ lookup h1 1 = none ∧
        (∀ i, read h1 1 i = none) ∧ (∀ i b, write h1 1 i b = none)) :=
  ⟨by decide, reallocate_zero_releases failingAllocator [(1, [10, 11, 12, 13]), (5, [1])] 1 7
    (by decide)⟩

/-- Claim C2: for `newSize > 0` and the sentinel or a valid block, when the
allocator satisfies the request `reallocate` returns a valid block whose
recorded size is `newSize`: reads and writes succeed at exactly the indices
below `newSize`. -/
theorem reallocate_returns_newSize_block (A : Allocator) (h : Heap) (p : Ptr)
    (oldSize newSize : Nat) (hA : A.WF) (hn : 0 < newSize) (hp : p = NULL ∨ valid h p)
    (hs : (A.choose h p newSize).isSome = true) :
    ∃ q h1, reallocate A h p oldSize newSize = .ret q h1 ∧ valid h1 q ∧
      blockSize h1 q = some newSize ∧
      (∀ i, (read h1 q i).isSome = true ↔ i < newSize) ∧
      (∀ i b, (write h1 q i b).isSome = true ↔ i < newSize) := by
  obtain ⟨q, hq⟩ := Option.isSome_iff_exists.mp hs
  have hq0 : q ≠ NULL := (hA h p newSize q hq).1
  obtain ⟨old, t, hr, -, -, -⟩ := reallocate_succeeds A h p oldSize newSize q hn hp hq hq0
  refine ⟨q, _, hr, ?_, ?_, ?_, ?_⟩
  · exact ⟨hq0, by simp [lookup_cons_self]⟩
  · simp [blockSize, lookup_cons_self, length_resize]
  · intro i
    rw [read_cons_self, getElem?_resize]
    by_cases hi : i < newSize <;> simp [hi]
  · intro i b
    simp only [write, lookup_cons_self, length_resize]
    by_cases hi : i < newSize <;> simp [hi]

/-- A fresh 8-byte block from the sentinel. -/
theorem reallocate_returns_newSize_block_witness :
    ∃ q h1, reallocate bumpAllocator [(5, [1])] NULL 0 8 = .ret q h1 ∧ valid h1 q ∧
      blockSize h1 q = some 8 ∧
      (∀ i, (read h1 q i).isSome = true ↔ i < 8) ∧
      (∀ i b, (write h1 q i b).isSome = true ↔ i < 8) :=
  reallocate_returns_newSize_block bumpAllocator [(5, [1])] NULL 0 8 bumpAllocator_wf
    (by decide) (Or.inl rfl) (by decide)

/-- Claim C3: for a valid block whose recorded size is `oldSize` and a request
`newSize > 0` that the allocator satisfies, the returned block holds the bytes
of the original block at every index below `min oldSize newSize`. -/
theorem reallocate_preserves_content (A : Allocator) (h : Heap) (p : Ptr)
    (oldSize newSize : Nat) (old : List Byte) (hA : A.WF) (hne : p ≠ NULL)
    (hold : lookup h p = some old) (hlen : old.length = oldSize) (hn : 0 < newSize)
    (hs : (A.choose h p newSize).isSome = true) :
    ∃ q h1, reallocate A h p oldSize newSize = .ret q h1 ∧
      (∀ i, i < min oldSize newSize →
        read h1 q i = read h p i ∧ (read h p i).isSome = true) ∧
      readBytes h1 q (min oldSize newSize) = some (old.take (min oldSize newSize)) := by
  obtain ⟨q, hq⟩ := Option.isSome_iff_exists.mp hs
  have hq0 : q ≠ NULL := (hA h p newSize q hq).1
  have hv : valid h p := ⟨hne, by simp [hold]⟩
  obtain ⟨old1, t, hr, ho, -, -⟩ :=
    reallocate_succeeds A h p oldSize newSize q hn (Or.inr hv) hq hq0
  have hold1 : old1 = old := Option.some.inj ((ho hne).symm.trans hold)
  subst hold1
  subst hlen
  refine ⟨q, _, hr, ?_, ?_⟩
  · intro i hi
    have hrd : read h p i = old1[i]? := by simp [read, hold]
    rw [read_cons_self, getElem?_resize_old old1 newSize _ i hi, hrd]
    refine ⟨rfl, ?_⟩
    have hi1 : i < old1.length := lt_of_lt_of_le hi (min_le_left _ _)
    simp [hi1]
  · simp only [readBytes, lookup_cons_self, Option.bind, length_resize]
    rw [if_pos (min_le_right _ _), take_resize]

/-- The 4-byte block `[A, B, C, D]` resized to 2 bytes yields `[A, B]`. -/
theorem reallocate_preserves_content_witness :
    (∃ q h1, reallocate bumpAllocator [(1, [65, 66, 67, 68])] 1 4 2 = .ret q h1 ∧
      (∀ i, i < min 4 2 →
        read h1 q i = read [(1, [65, 66, 67, 68])] 1 i ∧
        (read [(1, [65, 66, 67, 68])] 1 i).isSome = true) ∧
      readBytes h1 q (min 4 2) = some (List.take (min 4 2) [65, 66, 67, 68])) ∧
    reallocate bumpAllocator [(1, [65, 66, 67, 68])] 1 4 2 = .ret 2 [(2, [65, 66])] :=
  ⟨reallocate_preserves_content bumpAllocator [(1, [65, 66, 67, 68])] 1 4 2 [65, 66, 67, 68]
    bumpAllocator_wf (by decide) (by decide) (by decide) (by decide) (by decide), by decide⟩

/-- Claim C4: for `newSize > 0` and the sentinel or a valid block, when the
allocator cannot satisfy the request `realloc` yields the null pointer and
`reallocate` does not return: the process ends with exit status 1. -/
theorem reallocate_exhaustion_exits (A : Allocator) (h : Heap) (p : Ptr)
    (oldSize newSize : Nat) (hn : 0 < newSize) (hp : p = NULL ∨ valid h p)
    (hf : A.choose h p newSize = none) :
    realloc A h p newSize = .ret NULL h ∧
    reallocate A h p oldSize newSize = .exit 1 ∧
    (reallocate A h p oldSize newSize).returns = false ∧
    (reallocate A h p oldSize newSize).exits = true := by
  have hr := realloc_fails A h p newSize hp hf
  have he : reallocate A h p oldSize newSize = .exit 1 := by
    rw [reallocate_pos A h p oldSize newSize hn, hr]
    simp [Outcome.bind, exit]
  exact ⟨hr, he, by simp [he, Outcome.returns], by simp [he, Outcome.exits]⟩

/-- A fresh allocation and a growth, both with an allocator that always fails. -/
theorem reallocate_exhaustion_exits_witness :
    (realloc failingAllocator [(5, [1])] NULL 3 = .ret NULL [(5, [1])] ∧
      reallocate failingAllocator [(5, [1])] NULL 0 3 = .exit 1 ∧
      (reallocate failingAllocator [(5, [1])] NULL 0 3).returns = false ∧
      (reallocate failingAllocator [(5, [1])] NULL 0 3).exits = true) ∧
    (realloc (boundedAllocator 6) [(1, [10, 11, 12, 13]), (5, [1])] 1 6
        = .ret NULL [(1, [10, 11, 12, 13]), (5, [1])] ∧
      reallocate (boundedAllocator 6) [(1, [10, 11, 12, 13]), (5, [1])] 1 4 6 = .exit 1 ∧
      (reallocate (boundedAllocator 6) [(1, [10, 11, 12, 13]), (5, [1])] 1 4 6).returns = false ∧
      (reallocate (boundedAllocator 6) [(1, [10, 11, 12, 13]), (5, [1])] 1 4 6).exits = true) :=
  ⟨reallocate_exhaustion_exits failingAllocator [(5, [1])] NULL 0 3 (by decide) (Or.inl rfl) rfl,
   reallocate_exhaustion_exits (boundedAllocator 6) [(1, [10, 11, 12, 13]), (5, [1])] 1 4 6
    (by decide) (Or.inr (by decide)) (by decide)⟩

/-- Claim C5: whenever `reallocate` returns, the returned pointer is the
sentinel exactly when `newSize = 0`; a returned pointer for a nonzero
`newSize` is never null, whatever the allocator does. -/
theorem reallocate_null_iff (A : Allocator) (h : Heap) (p : Ptr) (oldSize newSize : Nat)
    (q : Ptr) (h1 : Heap) (hr : reallocate A h p oldSize newSize = .ret q h1) :
    q = NULL ↔ newSize = 0 := by
  by_cases hn : newSize = 0
  · subst hn
    rw [reallocate_zero] at hr
    cases hfree : free h p with
    | ret v h2 =>
      simp [hfree, Outcome.bind] at hr
      simp [hr.1]
    | exit st => simp [hfree, Outcome.bind] at hr
    | undefined => simp [hfree, Outcome.bind] at hr
  · rw [reallocate_pos A h p oldSize newSize (Nat.pos_of_ne_zero hn)] at hr
    cases hre : realloc A h p newSize with
    | ret v h2 =>
      by_cases hv : v = NULL
      · simp [hre, Outcome.bind, hv, exit] at hr
      · simp [hre, Outcome.bind, hv] at hr
        simp [hn, ← hr.1, hv]
    | exit st => simp [hre, Outcome.bind] at hr
    | undefined => simp [hre, Outcome.bind] at hr

/-- A release returns the sentinel and a growth returns a non-null block. -/
theorem reallocate_null_iff_witness :
    ((0 : Ptr) = NULL ↔ (0 : Nat) = 0) ∧ ((6 : Ptr) = NULL ↔ (9 : Nat) = 0) :=
  ⟨reallocate_null_iff inPlaceAllocator [(1, [10, 11, 12, 13]), (5, [1])] 1 4 0 0 [(5, [1])]
    (by decide),
   reallocate_null_iff bumpAllocator [(1, [10, 11, 12, 13]), (5, [1])] 1 4 9 6
    [(6, [10, 11, 12, 13, 0, 0, 0, 0, 0]), (5, [1])] (by decide)⟩

/-- Claim C6: releasing the sentinel is a no-op.  For every `oldSize` the call
returns the sentinel, does not end the process and leaves the heap as it was;
repeating the call any number of times gives the same result and heap. -/
theorem release_sentinel_noop (A : Allocator) (h : Heap) (oldSize : Nat) :
    reallocate A h NULL oldSize 0 = .ret NULL h ∧
    (reallocate A h NULL oldSize 0).exits = false ∧
    ∀ k, releaseSentinel A h oldSize k = .ret NULL h := by
  have h0 : ∀ g : Heap, reallocate A g NULL oldSize 0 = .ret NULL g := by
    intro g
    rw [reallocate_zero, free_null]
    rfl
  refine ⟨h0 h, by simp [h0 h, Outcome.exits], ?_⟩
  intro k
  induction k with
  | zero => rfl
  | succ k ih =>
    simp only [releaseSentinel, ih, Outcome.bind]
    exact h0 h

/-- Claim C7: exhaustion is the only error condition.  For every input,
`reallocate` ends the process exactly when `newSize > 0` and `realloc` yields
the null pointer; on the inputs the interface allows (the sentinel or a valid
block) that is exactly when `newSize > 0` and the allocator cannot satisfy the
request.  A call with `newSize = 0` never ends the process, and on the inputs
the interface allows it returns. -/
theorem reallocate_exits_iff (A : Allocator) (h : Heap) (p : Ptr) (oldSize newSize : Nat) :
    ((reallocate A h p oldSize newSize).exits = true ↔
      0 < newSize ∧ ∃ h1, realloc A h p newSize = .ret NULL h1) ∧
    (A.WF → (p = NULL ∨ valid h p) →
      ((reallocate A h p oldSize newSize).exits = true ↔
        0 < newSize ∧ A.choose h p newSize = none)) ∧
    (newSize = 0 → (reallocate A h p oldSize newSize).exits = false) ∧
    (newSize = 0 → (p = NULL ∨ valid h p) →
      (reallocate A h p oldSize newSize).returns = true) := by
  have hzero : newSize = 0 → (reallocate A h p oldSize newSize).exits = false := by
    intro hn
    subst hn
    rw [reallocate_zero]
    have hfe := free_exits h p
    cases hfree : free h p <;> simp [hfree, Outcome.bind, Outcome.exits] at hfe ⊢
  have hiff : (reallocate A h p oldSize newSize).exits = true ↔
      0 < newSize ∧ ∃ h1, realloc A h p newSize = .ret NULL h1 := by
    by_cases hn : newSize = 0
    · subst hn
      simp [hzero rfl]
    · have hpos : 0 < newSize := Nat.pos_of_ne_zero hn
      rw [reallocate_pos A h p oldSize newSize hpos]
      cases hre : realloc A h p newSize with
      | ret v h2 =>
        by_cases hv : v = NULL
        · subst hv
          simp [Outcome.bind, exit, Outcome.exits, hpos]
        · simp [Outcome.bind, Outcome.exits, hv, hpos]
      | exit st =>
        have hne := realloc_exits A h p newSize
        simp [hre, Outcome.exits] at hne
      | undefined => simp [Outcome.bind, Outcome.exits]
  refine ⟨hiff, ?_, hzero, ?_⟩
  · intro hA hp
    rw [hiff]
    constructor
    · rintro ⟨hpos, h1, hre⟩
      refine ⟨hpos, ?_⟩
      cases hc : A.choose h p newSize with
      | none => rfl
      | some q =>
        have hq0 := (hA h p newSize q hc).1
        obtain ⟨old, t, hr, -, -, -⟩ :=
          reallocate_succeeds A h p oldSize newSize q hpos hp hc hq0
        rw [reallocate_pos A h p oldSize newSize hpos, hre] at hr
        simp [Outcome.bind, exit] at hr
    · rintro ⟨hpos, hf⟩
      exact ⟨hpos, h, realloc_fails A h p newSize hp hf⟩
  · intro hn hp
    subst hn
    obtain ⟨h1, hr, -⟩ := release_returns_sentinel A h p oldSize hp
    simp [hr, Outcome.returns]

/-- A growth that exhausts a 6-byte memory ends the process; the release of the
same block with the same allocator returns. -/
theorem reallocate_exits_iff_witness :
    ((reallocate (boundedAllocator 6) [(1, [10, 11, 12, 13]), (5, [1])] 1 4 6).exits = true ↔
      0 < 6 ∧ (boundedAllocator 6).choose [(1, [10, 11, 12, 13]), (5, [1])] 1 6 = none) ∧
    (reallocate (boundedAllocator 6) [(1, [10, 11, 12, 13]), (5, [1])] 1 4 0).returns = true :=
  ⟨(reallocate_exits_iff (boundedAllocator 6) [(1, [10, 11, 12, 13]), (5, [1])] 1 4 6).2.1
      (boundedAllocator_wf 6) (Or.inr (by decide)),
   (reallocate_exits_iff (boundedAllocator 6) [(1, [10, 11, 12, 13]), (5, [1])] 1 4 0).2.2.2
      rfl (Or.inr (by decide))⟩

/-- Claim C8: the create/grow/release sequence with an allocator that
succeeds.  `reallocate(sentinel, 0, 8)` returns a valid 8-byte block `b1`; the
bytes 1..8 can be written into it; `reallocate(b1, 8, 16)` then returns a valid
16-byte block `b2` whose first 8 bytes are 1..8; `reallocate(b2, 16, 0)`
returns the sentinel and leaves the heap as it was before the sequence, with
neither `b1` nor `b2` valid. -/
theorem create_grow_release (A : Allocator) (h0 : Heap) (hA : A.WF)
    (hS : A.alwaysSucceeds) :
    ∃ b1 h1, reallocate A h0 NULL 0 8 = .ret b1 h1 ∧ valid h1 b1 ∧
      blockSize h1 b1 = some 8 ∧
      ∃ h2, writeFrom h1 b1 0 [1, 2, 3, 4, 5, 6, 7, 8] = some h2 ∧
        ∃ b2 h3, reallocate A h2 b1 8 16 = .ret b2 h3 ∧ valid h3 b2 ∧
          blockSize h3 b2 = some 16 ∧
          readBytes h3 b2 8 = some [1, 2, 3, 4, 5, 6, 7, 8] ∧
          reallocate A h3 b2 16 0 = .ret NULL h0 ∧ ¬ valid h0 b1 ∧ ¬ valid h0 b2 := by
  -- create
  obtain ⟨b1, hb1⟩ := Option.isSome_iff_exists.mp (hS h0 NULL 8)
  obtain ⟨hb1ne, hb1fresh⟩ := hA h0 NULL 8 b1 hb1
  have hfresh1 : lookup h0 b1 = none := hb1fresh.resolve_left hb1ne
  have hc1 : reallocate A h0 NULL 0 8
      = .ret b1 ((b1, resize [] 8 (A.junk h0 NULL 8)) :: h0) := by
    rw [reallocate_pos A h0 NULL 0 8 (by decide), realloc_null_succeeds A h0 8 b1 hb1]
    simp [Outcome.bind, hb1ne]
  refine ⟨b1, _, hc1, ⟨hb1ne, by simp [lookup_cons_self]⟩,
    by simp [blockSize, lookup_cons_self, length_resize], ?_⟩
  -- write
  obtain ⟨new, hw, hlen, hin, -⟩ :=
    writeFrom_cons b1 h0 hfresh1 [1, 2, 3, 4, 5, 6, 7, 8] (resize [] 8 (A.junk h0 NULL 8)) 0
      (by simp [length_resize])
  have hnew : new = [1, 2, 3, 4, 5, 6, 7, 8] := by
    apply List.ext_getElem?
    intro j
    by_cases hj : j < 8
    · have := hin j (by simpa using hj)
      rwa [Nat.zero_add] at this
    · rw [List.getElem?_eq_none, List.getElem?_eq_none]
      · simp; omega
      · rw [hlen, length_resize]; omega
  subst hnew
  refine ⟨_, hw, ?_⟩
  -- grow
  obtain ⟨b2, hb2⟩ := Option.isSome_iff_exists.mp
    (hS ((b1, [1, 2, 3, 4, 5, 6, 7, 8]) :: h0) b1 16)
  obtain ⟨hb2ne, hb2fresh⟩ := hA _ b1 16 b2 hb2
  have hfresh2 : lookup h0 b2 = none := by
    rcases hb2fresh with e | e
    · rw [e]; exact hfresh1
    · by_cases hbb : b2 = b1
      · rw [hbb]; exact hfresh1
      · rwa [lookup_cons_ne b1 b2 _ h0 hbb] at e
  have hrm : remove ((b1, [1, 2, 3, 4, 5, 6, 7, 8]) :: h0) b1 = h0 := by
    simp [remove, remove_of_lookup_none h0 b1 hfresh1]
  have hc2 : reallocate A ((b1, [1, 2, 3, 4, 5, 6, 7, 8]) :: h0) b1 8 16
      = .ret b2 ((b2, resize [1, 2, 3, 4, 5, 6, 7, 8] 16
          (A.junk ((b1, [1, 2, 3, 4, 5, 6, 7, 8]) :: h0) b1 16)) :: h0) := by
    rw [reallocate_pos A _ b1 8 16 (by decide),
      realloc_valid_succeeds A _ b1 16 b2 [1, 2, 3, 4, 5, 6, 7, 8] hb1ne
        (lookup_cons_self _ _ _) hb2, hrm]
    simp [Outcome.bind, hb2ne]
  refine ⟨b2, _, hc2, ⟨hb2ne, by simp [lookup_cons_self]⟩,
    by simp [blockSize, lookup_cons_self, length_resize], ?_, ?_, ?_, ?_⟩
  · have ht := take_resize [1, 2, 3, 4, 5, 6, 7, 8] 16
      (A.junk ((b1, [1, 2, 3, 4, 5, 6, 7, 8]) :: h0) b1 16)
    simp only [readBytes, lookup_cons_self, Option.bind, length_resize]
    rw [if_pos (by decide)]
    simpa using ht
  · -- release
    rw [reallocate_zero, free_valid _ b2 ⟨hb2ne, by simp [lookup_cons_self]⟩]
    simp [Outcome.bind, remove, remove_of_lookup_none h0 b2 hfresh2]
  · intro hv
    simp [valid, hfresh1] at hv
  · intro hv
    simp [valid, hfresh2] at hv

/-- The sequence run with an allocator that always moves the block. -/
theorem create_grow_release_witness :
    ∃ b1 h1, reallocate bumpAllocator [(5, [1])] NULL 0 8 = .ret b1 h1 ∧ valid h1 b1 ∧
      blockSize h1 b1 = some 8 ∧
      ∃ h2, writeFrom h1 b1 0 [1, 2, 3, 4, 5, 6, 7, 8] = some h2 ∧
        ∃ b2 h3, reallocate bumpAllocator h2 b1 8 16 = .ret b2 h3 ∧ valid h3 b2 ∧
          blockSize h3 b2 = some 16 ∧
          readBytes h3 b2 8 = some [1, 2, 3, 4, 5, 6, 7, 8] ∧
          reallocate bumpAllocator h3 b2 16 0 = .ret NULL [(5, [1])] ∧
          ¬ valid [(5, [1])] b1 ∧ ¬ valid [(5, [1])] b2 :=
  create_grow_release bumpAllocator [(5, [1])] bumpAllocator_wf bumpAllocator_alwaysSucceeds

/-- Claim C9: frame.  When a call returns, every block other than the one passed
in that was live before is still live with the same size and the same bytes,
and the table is unchanged at every address other than the passed and the
returned one. -/
theorem reallocate_frame (A : Allocator) (h : Heap) (p : Ptr) (oldSize newSize : Nat)
    (q : Ptr) (h1 : Heap) (hA : A.WF)
    (hr : reallocate A h p oldSize newSize = .ret q h1) :
    (∀ r, r ≠ p → (lookup h r).isSome = true → lookup h1 r = lookup h r) ∧
    (∀ r, r ≠ p → valid h r →
      valid h1 r ∧ blockSize h1 r = blockSize h r ∧ ∀ i, read h1 r i = read h r i) ∧
    (∀ r, r ≠ p → r ≠ q → lookup h1 r = lookup h r) := by
  obtain ⟨t, ht, hsh⟩ := reallocate_ret_shape A h p oldSize newSize q h1 hr
  have htl : ∀ r, r ≠ p → lookup t r = lookup h r := by
    intro r hrp
    rcases ht with e | e
    · rw [e]
    · rw [e]; exact lookup_remove_ne h p r hrp
  have hlive : ∀ r, r ≠ p → (lookup h r).isSome = true → lookup h1 r = lookup h r := by
    intro r hrp hl
    rcases hsh with ⟨-, -, e⟩ | ⟨-, -, hc, bs, e⟩
    · rw [e]; exact htl r hrp
    · have hrq : r ≠ q := by
        intro hrq
        rcases (hA h p newSize q hc).2 with e2 | e2
        · exact hrp (hrq.trans e2)
        · rw [hrq, e2] at hl
          simp at hl
      rw [e, lookup_cons_ne q r bs t hrq]
      exact htl r hrp
  refine ⟨hlive, ?_, ?_⟩
  · intro r hrp hv
    have e := hlive r hrp hv.2
    exact ⟨⟨hv.1, by rw [e]; exact hv.2⟩, by simp [blockSize, e], by intro i; simp [read, e]⟩
  · intro r hrp hrq
    rcases hsh with ⟨-, -, e⟩ | ⟨-, -, -, bs, e⟩
    · rw [e]; exact htl r hrp
    · rw [e, lookup_cons_ne q r bs t hrq]
      exact htl r hrp

/-- Growing block 1 with an allocator that moves it leaves block 5 as it was. -/
theorem reallocate_frame_witness :
    (∀ r, r ≠ 1 → (lookup [(1, [10, 11, 12, 13]), (5, [1])] r).isSome = true →
      lookup [(6, [10, 11, 12, 13, 0, 0]), (5, [1])] r
        = lookup [(1, [10, 11, 12, 13]), (5, [1])] r) ∧
    (∀ r, r ≠ 1 → valid [(1, [10, 11, 12, 13]), (5, [1])] r →
      valid [(6, [10, 11, 12, 13, 0, 0]), (5, [1])] r ∧
      blockSize [(6, [10, 11, 12, 13, 0, 0]), (5, [1])] r
        = blockSize [(1, [10, 11, 12, 13]), (5, [1])] r ∧
      ∀ i, read [(6, [10, 11, 12, 13, 0, 0]), (5, [1])] r i
        = read [(1, [10, 11, 12, 13]), (5, [1])] r i) ∧
    (∀ r, r ≠ 1 → r ≠ 6 →
      lookup [(6, [10, 11, 12, 13, 0, 0]), (5, [1])] r
        = lookup [(1, [10, 11, 12, 13]), (5, [1])] r) :=
  reallocate_frame bumpAllocator [(1, [10, 11, 12, 13]), (5, [1])] 1 4 6 6
    [(6, [10, 11, 12, 13, 0, 0]), (5, [1])] bumpAllocator_wf (by decide)

/-- Claim C10: `oldSize` has no influence.  Two calls that differ only in
`oldSize` have the same outcome (same returned block and heap, or same
termination); the bytes carried over by a resize are those of the block as the
heap records it, below the lesser of its recorded size and `newSize`. -/
theorem reallocate_oldSize_irrelevant (A : Allocator) (h : Heap) (p : Ptr)
    (oldSize1 oldSize2 newSize : Nat) :
    reallocate A h p oldSize1 newSize = reallocate A h p oldSize2 newSize ∧
    (∀ old q h1, p ≠ NULL → lookup h p = some old →
      reallocate A h p oldSize1 newSize = .ret q h1 →
      ∀ i, i < min old.length newSize → read h1 q i = old[i]?) := by
  refine ⟨rfl, ?_⟩
  intro old q h1 hne hold hr i hi
  obtain ⟨t, -, hsh⟩ := reallocate_ret_shape A h p oldSize1 newSize q h1 hr
  rcases hsh with ⟨hn, -, -⟩ | ⟨hpos, hq0, hc, -⟩
  · subst hn
    simp at hi
  · have hv : valid h p := ⟨hne, by simp [hold]⟩
    obtain ⟨old1, t1, hr1, ho, -, -⟩ :=
      reallocate_succeeds A h p oldSize1 newSize q hpos (Or.inr hv) hc hq0
    have hold1 : old1 = old := Option.some.inj ((ho hne).symm.trans hold)
    subst hold1
    rw [hr1] at hr
    injection hr with _ e
    subst e
    rw [read_cons_self]
    exact getElem?_resize_old old1 newSize _ i hi

/-- A 4-byte block shrunk to 3 bytes by a caller that passes `oldSize = 2` or
`oldSize = 100`: the same outcome, with the first three of the four bytes. -/
theorem reallocate_oldSize_irrelevant_witness :
    reallocate bumpAllocator [(1, [10, 11, 12, 13])] 1 2 3
      = reallocate bumpAllocator [(1, [10, 11, 12, 13])] 1 100 3 ∧
    (∀ i, i < min (List.length [(10 : Byte), 11, 12, 13]) 3 →
      read [(2, [10, 11, 12])] 2 i = [(10 : Byte), 11, 12, 13][i]?) :=
  ⟨(reallocate_oldSize_irrelevant bumpAllocator [(1, [10, 11, 12, 13])] 1 2 100 3).1,
   (reallocate_oldSize_irrelevant bumpAllocator [(1, [10, 11, 12, 13])] 1 2 100 3).2
    [10, 11, 12, 13] 2 [(2, [10, 11, 12])] (by decide) (by decide) (by decide)⟩

end Memory
